/-
  Verification of the FTuner auto-tuning search engine.

  Shallow embedding of the search-policy code:
  - `src/tvm/include/tvm/hardware/hw_aligned_config.h` (HwAlignedConfig and its
    comparison operator),
  - the ranking/pruning filters of the hardware-aligned config search,
  - the evolutionary-search retention heap and mutation loop,
  - the initial-population sampler loop,
  - the sketch-generation wave loop,
  - the SearchTask constructor checks,
  - the final dispatch / build-verification loop of Search.

  C++ `int`/`int64_t`/`size_t` values are modelled as `Int` (no overflow is at
  stake in any claim); C++ `float`/`double` are modelled as `Rat`.
-/
import Mathlib

namespace FTuner

/-- Modelled from the spec: the helpers `floor_div` / `floor_by` from the
repository's `utils.h` are not part of the given sources.  The spec describes
the quantity `floor_by(g, num_cores)` as `roundUp(g, num_cores)` (occupancy
score of §4.2), so `floor_div` is round-up division and `floor_by` rounds up
to a multiple.  On the nonnegative operands that appear in all claims this is
ceiling division. -/
def floor_div (a b : Int) : Int := (a + b - 1).tdiv b

/-- Modelled from the spec: round `a` up to a multiple of `b`
(`roundUp(a, b)` in the spec's words); companion of `floor_div`. -/
def floor_by (a b : Int) : Int := ((a + b - 1).tdiv b) * b

/-! ## HwAlignedConfig and its comparison operator
    (src/tvm/include/tvm/hardware/hw_aligned_config.h) -/

structure HwAlignedConfig where
  space_tiles : List (List Int)
  reduce_tiles : List (List Int)
  k_threshold : List Rat
  compute_intensive_ratio : List Rat
  single_thread_reg_usage : Int
  space_production_threshold : Int
  smem_usage : Int
  threads_num : Int
deriving DecidableEq, Inhabited, Repr

/-- The element-wise scan of one tile row in `HwAlignedConfig::operator<`:
`some true` / `some false` once a strictly smaller / larger entry is found,
`none` when the loop falls through.  (The C++ loop indexes the right operand
with the left operand's indices; configs built for the same task have equal
shapes, for which this parallel walk is exact.) -/
def lexLtAux : List Int → List Int → Option Bool
  | [], _ => none
  | _ :: _, [] => none
  | x :: xs, y :: ys =>
    if x < y then some true else if y < x then some false else lexLtAux xs ys

/-- The nested row loop of `HwAlignedConfig::operator<` over a tile matrix. -/
def lexLtRows : List (List Int) → List (List Int) → Option Bool
  | [], _ => none
  | _ :: _, [] => none
  | r :: rs, s :: ss =>
    match lexLtAux r s with
    | some v => some v
    | none => lexLtRows rs ss

/-- `HwAlignedConfig::operator<`: scan `space_tiles` first, then
`reduce_tiles`; return `false` when every compared entry is equal. -/
def HwAlignedConfig.lt (c1 c2 : HwAlignedConfig) : Bool :=
  match lexLtRows c1.space_tiles c2.space_tiles with
  | some v => v
  | none =>
    match lexLtRows c1.reduce_tiles c2.reduce_tiles with
    | some v => v
    | none => false

/-- Two tile matrices have the same shape: equally many rows, of equal
lengths (configs built for the same task). -/
def sameShape (a b : List (List Int)) : Prop := a.map List.length = b.map List.length

theorem lexLtAux_self (l : List Int) : lexLtAux l l = none := by
  induction l with
  | nil => rfl
  | cons x xs ih => simp [lexLtAux, ih]

theorem lexLtRows_self (l : List (List Int)) : lexLtRows l l = none := by
  induction l with
  | nil => rfl
  | cons r rs ih => simp [lexLtRows, lexLtAux_self, ih]

theorem lexLtAux_swap : ∀ a b : List Int, lexLtAux a b = some true ↔ lexLtAux b a = some false := by
  intro a
  induction a with
  | nil => intro b; cases b <;> simp [lexLtAux]
  | cons x xs ih =>
    intro b
    cases b with
    | nil => simp [lexLtAux]
    | cons y ys =>
      by_cases hxy : x < y
      · have hyx : ¬ y < x := by omega
        simp [lexLtAux, hxy, hyx]
      · by_cases hyx : y < x
        · simp [lexLtAux, hxy, hyx]
        · simp [lexLtAux, hxy, hyx, ih ys]

theorem lexLtAux_trans : ∀ a b c : List Int,
    lexLtAux a b = some true → lexLtAux b c = some true → lexLtAux a c = some true := by
  intro a
  induction a with
  | nil => intro b c h; simp [lexLtAux] at h
  | cons x xs ih =>
    intro b c h1 h2
    cases b with
    | nil => simp [lexLtAux] at h1
    | cons y ys =>
      cases c with
      | nil => simp [lexLtAux] at h2
      | cons z zs =>
        by_cases hxy : x < y
        · -- x < y; from b < c obtain y ≤ z, hence x < z
          by_cases hyz : y < z
          · have : x < z := by omega
            simp [lexLtAux, this]
          · by_cases hzy : z < y
            · simp [lexLtAux, hyz, hzy] at h2
            · have hyz2 : y = z := by omega
              have : x < z := by omega
              simp [lexLtAux, this]
        · by_cases hyx : y < x
          · simp [lexLtAux, hxy, hyx] at h1
          · have hxy2 : x = y := by omega
            subst hxy2
            simp only [lexLtAux, if_neg hxy, if_neg hyx] at h1
            by_cases hyz : x < z
            · simp [lexLtAux, hyz]
            · by_cases hzy : z < x
              · simp [lexLtAux, hyz, hzy] at h2
              · simp only [lexLtAux, if_neg hyz, if_neg hzy] at h2 ⊢
                exact ih ys zs h1 h2

theorem lexLtAux_none_iff {a b : List Int} (hlen : a.length = b.length) :
    lexLtAux a b = none ↔ a = b := by
  induction a generalizing b with
  | nil => cases b with
    | nil => simp [lexLtAux]
    | cons y ys => simp at hlen
  | cons x xs ih =>
    cases b with
    | nil => simp at hlen
    | cons y ys =>
      simp only [List.length_cons, Nat.succ.injEq] at hlen
      by_cases hxy : x < y
      · simp [lexLtAux, hxy]; omega
      · by_cases hyx : y < x
        · simp [lexLtAux, hxy, hyx]; omega
        · have hxy2 : x = y := by omega
          subst hxy2
          simp [lexLtAux, hxy, hyx, ih hlen]

theorem lexLtRows_swap : ∀ a b : List (List Int),
    lexLtRows a b = some true ↔ lexLtRows b a = some false := by
  intro a
  induction a with
  | nil => intro b; cases b <;> simp [lexLtRows]
  | cons r rs ih =>
    intro b
    cases b with
    | nil => simp [lexLtRows]
    | cons s ss =>
      cases h : lexLtAux r s with
      | some v =>
        cases v with
        | true =>
          have h2 : lexLtAux s r = some false := (lexLtAux_swap r s).mp h
          simp [lexLtRows, h, h2]
        | false =>
          have h2 : lexLtAux s r = some true := (lexLtAux_swap s r).mpr h
          simp [lexLtRows, h, h2]
      | none =>
        have h2 : lexLtAux s r ≠ some true := by
          intro hc
          rw [lexLtAux_swap s r] at hc
          rw [h] at hc
          exact Option.noConfusion hc
        have h3 : lexLtAux s r ≠ some false := by
          intro hc
          rw [← lexLtAux_swap r s] at hc
          rw [h] at hc
          exact Option.noConfusion hc
        cases h4 : lexLtAux s r with
        | some v => cases v with
          | true => exact absurd h4 h2
          | false => exact absurd h4 h3
        | none => simp [lexLtRows, h, h4, ih ss]

theorem sameShape_length {a b : List (List Int)} (h : sameShape a b) : a.length = b.length := by
  have := congrArg List.length h
  simpa using this

theorem sameShape_cons {r s : List Int} {rs ss : List (List Int)}
    (h : sameShape (r :: rs) (s :: ss)) : r.length = s.length ∧ sameShape rs ss := by
  unfold sameShape at h ⊢
  simpa using h

theorem lexLtRows_trans {a b c : List (List Int)}
    (hab : sameShape a b) (hbc : sameShape b c) :
    lexLtRows a b = some true → lexLtRows b c = some true → lexLtRows a c = some true := by
  induction a generalizing b c with
  | nil => intro h1 _; simp [lexLtRows] at h1
  | cons r rs ih =>
    intro h1 h2
    cases b with
    | nil => exact absurd (sameShape_length hab) (by simp)
    | cons s ss =>
      cases c with
      | nil => exact absurd (sameShape_length hbc) (by simp)
      | cons t ts =>
        obtain ⟨habl, habs⟩ := sameShape_cons hab
        obtain ⟨hbcl, hbcs⟩ := sameShape_cons hbc
        cases hrs : lexLtAux r s with
        | some v =>
          cases v with
          | false => simp [lexLtRows, hrs] at h1
          | true =>
            cases hst : lexLtAux s t with
            | some w =>
              cases w with
              | false => simp [lexLtRows, hst] at h2
              | true =>
                have : lexLtAux r t = some true := lexLtAux_trans r s t hrs hst
                simp [lexLtRows, this]
            | none =>
              have hst2 : s = t := (lexLtAux_none_iff hbcl).mp hst
              subst hst2
              simp [lexLtRows, hrs]
        | none =>
          have hrs2 : r = s := (lexLtAux_none_iff habl).mp hrs
          subst hrs2
          simp only [lexLtRows, hrs] at h1
          cases hst : lexLtAux r t with
          | some w =>
            cases w with
            | false => simp [lexLtRows, hst] at h2
            | true => simp [lexLtRows, hst]
          | none =>
            simp only [lexLtRows, hst] at h2
            simp [lexLtRows, hst, ih habs hbcs h1 h2]

theorem lexLtRows_none_iff {a b : List (List Int)} (h : sameShape a b) :
    lexLtRows a b = none ↔ a = b := by
  induction a generalizing b with
  | nil =>
    cases b with
    | nil => simp [lexLtRows]
    | cons s ss => exact absurd (sameShape_length h) (by simp)
  | cons r rs ih =>
    cases b with
    | nil => exact absurd (sameShape_length h) (by simp)
    | cons s ss =>
      have hh : r.length = s.length ∧ sameShape rs ss := by
        unfold sameShape at h ⊢
        simpa using h
      constructor
      · intro hn
        cases hrow : lexLtAux r s with
        | some v => simp [lexLtRows, hrow] at hn
        | none =>
          have h1 : r = s := (lexLtAux_none_iff hh.1).mp hrow
          simp only [lexLtRows, hrow] at hn
          have h2 : rs = ss := (ih hh.2).mp hn
          rw [h1, h2]
      · intro he
        cases he
        exact lexLtRows_self _

theorem hwlt_true_cases {A B : HwAlignedConfig} (h : A.lt B = true) :
    lexLtRows A.space_tiles B.space_tiles = some true
    ∨ (lexLtRows A.space_tiles B.space_tiles = none
       ∧ lexLtRows A.reduce_tiles B.reduce_tiles = some true) := by
  unfold HwAlignedConfig.lt at h
  cases hs : lexLtRows A.space_tiles B.space_tiles with
  | some v =>
    rw [hs] at h
    cases v with
    | true => exact Or.inl rfl
    | false => simp at h
  | none =>
    rw [hs] at h
    cases hr : lexLtRows A.reduce_tiles B.reduce_tiles with
    | some v =>
      rw [hr] at h
      cases v with
      | true => exact Or.inr ⟨rfl, rfl⟩
      | false => simp at h
    | none => rw [hr] at h; simp at h

theorem hwlt_of_space_true {A B : HwAlignedConfig}
    (h : lexLtRows A.space_tiles B.space_tiles = some true) : A.lt B = true := by
  unfold HwAlignedConfig.lt
  rw [h]

theorem hwlt_of_space_none_reduce_true {A B : HwAlignedConfig}
    (hs : lexLtRows A.space_tiles B.space_tiles = none)
    (hr : lexLtRows A.reduce_tiles B.reduce_tiles = some true) : A.lt B = true := by
  unfold HwAlignedConfig.lt
  rw [hs, hr]

/-- C9: the less-than comparison on `HwAlignedConfig` (flattened lexicographic
order over `space_tiles` then `reduce_tiles`) is a strict weak ordering on
configs built for the same task (equal tile-list shapes): it is irreflexive and
transitive, and two configs are equivalent under it exactly when their
`space_tiles` and `reduce_tiles` are equal. -/
theorem hwAlignedConfig_lt_strict_weak_order
    (A B C : HwAlignedConfig)
    (hABs : sameShape A.space_tiles B.space_tiles)
    (hABr : sameShape A.reduce_tiles B.reduce_tiles)
    (hBCs : sameShape B.space_tiles C.space_tiles)
    (hBCr : sameShape B.reduce_tiles C.reduce_tiles) :
    A.lt A = false
    ∧ (A.lt B = true → B.lt C = true → A.lt C = true)
    ∧ ((A.lt B = false ∧ B.lt A = false) ↔
        (A.space_tiles = B.space_tiles ∧ A.reduce_tiles = B.reduce_tiles)) := by
  refine ⟨?_, ?_, ?_, ?_⟩
  · unfold HwAlignedConfig.lt
    rw [lexLtRows_self, lexLtRows_self]
  · intro h1 h2
    rcases hwlt_true_cases h1 with hs1 | ⟨hs1, hr1⟩
    · rcases hwlt_true_cases h2 with hs2 | ⟨hs2, hr2⟩
      · exact hwlt_of_space_true (lexLtRows_trans hABs hBCs hs1 hs2)
      · have he : B.space_tiles = C.space_tiles := (lexLtRows_none_iff hBCs).mp hs2
        exact hwlt_of_space_true (he ▸ hs1)
    · have he : A.space_tiles = B.space_tiles := (lexLtRows_none_iff hABs).mp hs1
      rcases hwlt_true_cases h2 with hs2 | ⟨hs2, hr2⟩
      · exact hwlt_of_space_true (he ▸ hs2)
      · have he2 : B.space_tiles = C.space_tiles := (lexLtRows_none_iff hBCs).mp hs2
        refine hwlt_of_space_none_reduce_true ?_ (lexLtRows_trans hABr hBCr hr1 hr2)
        rw [he, he2, lexLtRows_self]
  · rintro ⟨hAB, hBA⟩
    cases hs : lexLtRows A.space_tiles B.space_tiles with
    | some v =>
      cases v with
      | true => exact absurd (hwlt_of_space_true hs) (by rw [hAB]; simp)
      | false =>
        have : lexLtRows B.space_tiles A.space_tiles = some true :=
          (lexLtRows_swap _ _).mpr hs
        exact absurd (hwlt_of_space_true this) (by rw [hBA]; simp)
    | none =>
      have heq : A.space_tiles = B.space_tiles := (lexLtRows_none_iff hABs).mp hs
      refine ⟨heq, ?_⟩
      cases hr : lexLtRows A.reduce_tiles B.reduce_tiles with
      | some v =>
        cases v with
        | true =>
          exact absurd (hwlt_of_space_none_reduce_true hs hr) (by rw [hAB]; simp)
        | false =>
          have hr2 : lexLtRows B.reduce_tiles A.reduce_tiles = some true :=
            (lexLtRows_swap _ _).mpr hr
          have hs2 : lexLtRows B.space_tiles A.space_tiles = none := by
            rw [← heq, lexLtRows_self]
          exact absurd (hwlt_of_space_none_reduce_true hs2 hr2) (by rw [hBA]; simp)
      | none => exact (lexLtRows_none_iff hABr).mp hr
  · rintro ⟨hSp, hRd⟩
    constructor
    · unfold HwAlignedConfig.lt
      rw [hSp, hRd, lexLtRows_self, lexLtRows_self]
    · unfold HwAlignedConfig.lt
      rw [← hSp, ← hRd, lexLtRows_self, lexLtRows_self]

/-- A sample config used to instantiate the strict-weak-ordering theorem. -/
def sampleConfigA : HwAlignedConfig :=
  { space_tiles := [[1, 2], [4]], reduce_tiles := [[8]],
    k_threshold := [], compute_intensive_ratio := [],
    single_thread_reg_usage := 16, space_production_threshold := 1,
    smem_usage := 1024, threads_num := 64 }

/-- A second sample config, same tile shapes as `sampleConfigA`. -/
def sampleConfigB : HwAlignedConfig :=
  { sampleConfigA with space_tiles := [[1, 3], [4]] }

/-- A third sample config, same tile shapes as `sampleConfigA`. -/
def sampleConfigC : HwAlignedConfig :=
  { sampleConfigA with space_tiles := [[2, 1], [4]] }

theorem hwAlignedConfig_lt_strict_weak_order_witness :
    sampleConfigA.lt sampleConfigA = false
    ∧ (sampleConfigA.lt sampleConfigB = true → sampleConfigB.lt sampleConfigC = true →
        sampleConfigA.lt sampleConfigC = true)
    ∧ ((sampleConfigA.lt sampleConfigB = false ∧ sampleConfigB.lt sampleConfigA = false) ↔
        (sampleConfigA.space_tiles = sampleConfigB.space_tiles
         ∧ sampleConfigA.reduce_tiles = sampleConfigB.reduce_tiles)) :=
  hwAlignedConfig_lt_strict_weak_order sampleConfigA sampleConfigB sampleConfigC
    rfl rfl rfl rfl

/-! ## Ranking/pruning filters (src/unnamed/part_001: filter rules)

The filters walk parallel vectors `configs` / `cand_states` by index and
return a filtered pair of vectors; we model the two parallel vectors as one
list of pairs.  Dynamic-shape variables inside split-step extents are already
replaced by the workload instance's concrete values in the states below
(`DynShapeVarReplacer` applied). -/

inductive TStep where
  | split (extent : Int) (lengths : List Int)
  | other
deriving DecidableEq, Repr

/-- A candidate schedule state as the filters see it: its transform steps and
its stage count. -/
structure FState where
  transform_steps : List TStep
  stages : Nat
deriving DecidableEq, Inhabited, Repr

/-- The hardware/task fields read by the filters (`task->hardware_api` and
`task->hardware_params`).  A two-element partition array `xs[0], xs[1]` is
split into two scalar fields. -/
structure FilterTask where
  warp_size : Int
  compute_sm_partition1 : Int
  smem_sm_partition0 : Int
  smem_sm_partition1 : Int
  glbmem_sm_partition0 : Int
  num_cores : Int
  max_reg_per_sm : Int
  max_smem_usage_per_sm : Int
  lt_ratio : Rat
  gt_ratio : Rat
deriving Inhabited, Repr

/-- Grid size of a state: the product of `floor_div(extent, Π lengths)` over
its three-factor split steps (computed identically in `OccupancyFilter`,
`RegisterLaunchBoundsFilter` and `SharedMemoryLaunchBoundsFilter`). -/
def stateGridSize (s : FState) : Int :=
  s.transform_steps.foldl
    (fun acc st =>
      match st with
      | .split e ls => if ls.length = 3 then acc * floor_div e ls.prod else acc
      | .other => acc) 1

/-- Padding penalty of a state: the product of
`extent / floor_by(extent, Π lengths)` over split steps with 2 or 3 factors
(`PaddingFilter`). -/
def statePaddingPenalty (s : FState) : Rat :=
  s.transform_steps.foldl
    (fun acc st =>
      match st with
      | .split e ls =>
        if ls.length = 3 ∨ ls.length = 2 then
          acc * ((e : Rat) / ((floor_by e ls.prod : Int) : Rat))
        else acc
      | .other => acc) 1

/-- `ThreadsNumberFilter`: keep configs whose thread count is a multiple of
`warp_size * compute_sm_partition[1]` (C++ `%` is truncated remainder). -/
def ThreadsNumberFilter (t : FilterTask) (pairs : List (HwAlignedConfig × FState)) :
    List (HwAlignedConfig × FState) :=
  pairs.filter fun p =>
    decide (Int.tmod p.1.threads_num (t.warp_size * t.compute_sm_partition1) = 0)

/-- One evaluation of `PaddingFilter` at a given penalty threshold: keep the
pairs whose padding penalty strictly exceeds the threshold. -/
def PaddingFilter (threshold : Rat) (pairs : List (HwAlignedConfig × FState)) :
    List (HwAlignedConfig × FState) :=
  pairs.filter fun p => decide (threshold < statePaddingPenalty p.2)

/-- `RegisterLaunchBoundsFilter`: `sch_base` is 2 when the first state has
more than 7 stages, else 1; a pair survives when the projected per-SM register
pressure stays below `max_reg_per_sm` and the per-thread usage below 255. -/
def RegisterLaunchBoundsFilter (t : FilterTask) (pairs : List (HwAlignedConfig × FState)) :
    List (HwAlignedConfig × FState) :=
  let sch_base : Int := if (pairs.headI).2.stages > 7 then 2 else 1
  pairs.filter fun p =>
    let grid := stateGridSize p.2
    let blocks_in_sm := min t.smem_sm_partition1 (floor_div grid t.smem_sm_partition0)
    let reg : Rat := (p.1.single_thread_reg_usage : Rat)
    let rt : Rat := ((p.1.reduce_tiles.headI).headI : Rat)
    decide ((blocks_in_sm : Rat) * (p.1.threads_num : Rat) * (reg + reg * rt / 16)
              < (t.max_reg_per_sm : Rat)
            ∧ reg * (sch_base : Rat) + reg * rt / 16 < 255)

/-- `SharedMemoryLaunchBoundsFilter`: a pair survives when
`blocks_in_sm * smem_usage < max_smem_usage_per_sm` (the source sets `valid`
from `<` and then clears it on `>`, which nets to the strict `<` test). -/
def SharedMemoryLaunchBoundsFilter (t : FilterTask)
    (pairs : List (HwAlignedConfig × FState)) : List (HwAlignedConfig × FState) :=
  pairs.filter fun p =>
    let grid := stateGridSize p.2
    let blocks_in_sm := min t.smem_sm_partition1 (floor_div grid t.smem_sm_partition0)
    decide (blocks_in_sm * p.1.smem_usage < t.max_smem_usage_per_sm)

/-- Comparison used by `SharedMemoryComputeIntensiveFilter`'s `std::sort`
(descending by `compute_intensive_ratio[0]`). -/
def smemRatioGe (a b : HwAlignedConfig × FState) : Prop :=
  b.1.compute_intensive_ratio.headI ≤ a.1.compute_intensive_ratio.headI

instance : DecidableRel smemRatioGe := fun a b =>
  inferInstanceAs (Decidable (_ ≤ _))

instance : IsTotal (HwAlignedConfig × FState) smemRatioGe :=
  ⟨fun a b => le_total _ _⟩

instance : IsTrans (HwAlignedConfig × FState) smemRatioGe :=
  ⟨fun _ _ _ h1 h2 => le_trans h2 h1⟩

/-- Comparison used by `RegComputeIntensiveFilter`'s `std::sort`
(descending by `compute_intensive_ratio[1]`). -/
def regRatioGe (a b : HwAlignedConfig × FState) : Prop :=
  b.1.compute_intensive_ratio.getD 1 0 ≤ a.1.compute_intensive_ratio.getD 1 0

instance : DecidableRel regRatioGe := fun a b =>
  inferInstanceAs (Decidable (_ ≤ _))

instance : IsTotal (HwAlignedConfig × FState) regRatioGe :=
  ⟨fun a b => le_total _ _⟩

instance : IsTrans (HwAlignedConfig × FState) regRatioGe :=
  ⟨fun _ _ _ h1 h2 => le_trans h2 h1⟩

/-- `SharedMemoryComputeIntensiveFilter`: sort descending by
`compute_intensive_ratio[0]` and keep the top 20. -/
def SharedMemoryComputeIntensiveFilter (pairs : List (HwAlignedConfig × FState)) :
    List (HwAlignedConfig × FState) :=
  (pairs.insertionSort smemRatioGe).take 20

/-- `RegComputeIntensiveFilter`: sort descending by
`compute_intensive_ratio[1]` and keep the top 10. -/
def RegComputeIntensiveFilter (pairs : List (HwAlignedConfig × FState)) :
    List (HwAlignedConfig × FState) :=
  (pairs.insertionSort regRatioGe).take 10

/-- SM-multiple of a grid size (`floor_div(grid, glbmem_sm_partition[0])`). -/
def smTimesOf (t : FilterTask) (g : Int) : Int := floor_div g t.glbmem_sm_partition0

/-- The occupancy score of a grid size: `coeff·g / ((coeff−1)·g +
floor_by(g, num_cores))` with `coeff` = `lt_ratio` below the core count,
`gt_ratio` otherwise. -/
def occupancyPenalty (t : FilterTask) (g : Int) : Rat :=
  let coeff : Rat := if g < t.num_cores then t.lt_ratio else t.gt_ratio
  coeff * (g : Rat) / ((coeff - 1) * (g : Rat) + ((floor_by g t.num_cores : Int) : Rat))

/-- `max_grid_size`: running maximum of the grid sizes, starting from 0. -/
def occupancyMaxGrid (pairs : List (HwAlignedConfig × FState)) : Int :=
  pairs.foldl (fun m p => max m (stateGridSize p.2)) 0

/-- The SM-multiple window scanned by `OccupancyFilter`:
`sm_times = smem_sm_partition[1], ..., max_sm_times`. -/
def occupancyWindow (t : FilterTask) (maxSm : Int) : List Int :=
  (List.range (maxSm + 1 - t.smem_sm_partition1).toNat).map
    (fun (k : Nat) => t.smem_sm_partition1 + (k : Int))

/-- One sweep of `OccupancyFilter`'s inner loops at a fixed occupancy-ratio
threshold: for each SM-multiple in the window, keep the pairs in that
SM-multiple group whose occupancy score exceeds the threshold. -/
def occupancyPass (t : FilterTask) (pairs : List (HwAlignedConfig × FState))
    (maxSm : Int) (ratio : Rat) : List (HwAlignedConfig × FState) :=
  ((occupancyWindow t maxSm).map fun sm =>
    pairs.filter fun p =>
      decide (smTimesOf t (stateGridSize p.2) = sm
              ∧ ratio < occupancyPenalty t (stateGridSize p.2))).flatten

/-- The progressive-relaxation loop shared by `OccupancyFilter` (occupancy
ratio) and the `PaddingFilter` call site in `EfficientSearch` (padding
penalty threshold): run a pass, and while it comes back empty lower the
threshold by 0.05 and retry.  `fuel` bounds the number of passes we inspect;
the C++ loop has no bound, so exhausted fuel (`none`) for every `fuel` means
the loop never exits. -/
def relaxLoop (f : Rat → List α) : Nat → Rat → Option (List α)
  | 0, _ => none
  | Nat.succ n, r =>
    let res := f r
    if res.isEmpty then relaxLoop f n (r - 1 / 20) else some res

/-- `OccupancyFilter`: `max_sm_times` is computed once from the maximal grid
size, then the relaxation loop starts at threshold 0.95. -/
def OccupancyFilterLoop (t : FilterTask) (pairs : List (HwAlignedConfig × FState))
    (fuel : Nat) : Option (List (HwAlignedConfig × FState)) :=
  relaxLoop (occupancyPass t pairs (floor_div (occupancyMaxGrid pairs) t.glbmem_sm_partition0))
    fuel (19 / 20)

/-- The `PaddingFilter` relaxation loop of `EfficientSearch` (lines 820-833):
re-filter the same input at thresholds 0.95, 0.90, ... until non-empty. -/
def PaddingFilterLoop (pairs : List (HwAlignedConfig × FState)) (fuel : Nat) :
    Option (List (HwAlignedConfig × FState)) :=
  relaxLoop (fun threshold => PaddingFilter threshold pairs) fuel (19 / 20)

/-- C4 (amended): the four predicate filters (`ThreadsNumberFilter`,
`PaddingFilter`, `RegisterLaunchBoundsFilter`,
`SharedMemoryLaunchBoundsFilter`) keep surviving pairs in input order, while
`SharedMemoryComputeIntensiveFilter` / `RegComputeIntensiveFilter` sort the
pairs descending by their compute-intensity ratio and keep the top 20 / 10
(so they may reorder survivors). -/
theorem filters_order_preservation (t : FilterTask) (threshold : Rat)
    (pairs : List (HwAlignedConfig × FState)) :
    (ThreadsNumberFilter t pairs).Sublist pairs
    ∧ (PaddingFilter threshold pairs).Sublist pairs
    ∧ (RegisterLaunchBoundsFilter t pairs).Sublist pairs
    ∧ (SharedMemoryLaunchBoundsFilter t pairs).Sublist pairs
    ∧ (SharedMemoryComputeIntensiveFilter pairs).length ≤ 20
    ∧ (∀ p ∈ SharedMemoryComputeIntensiveFilter pairs, p ∈ pairs)
    ∧ (SharedMemoryComputeIntensiveFilter pairs).Sorted smemRatioGe
    ∧ (RegComputeIntensiveFilter pairs).length ≤ 10
    ∧ (∀ p ∈ RegComputeIntensiveFilter pairs, p ∈ pairs)
    ∧ (RegComputeIntensiveFilter pairs).Sorted regRatioGe := by
  refine ⟨List.filter_sublist _, List.filter_sublist _, List.filter_sublist _,
    List.filter_sublist _, ?_, ?_, ?_, ?_, ?_, ?_⟩
  · unfold SharedMemoryComputeIntensiveFilter
    rw [List.length_take]
    exact min_le_left _ _
  · intro p hp
    unfold SharedMemoryComputeIntensiveFilter at hp
    have hmem := List.take_subset _ _ hp
    simpa using (List.mem_insertionSort smemRatioGe).mp hmem
  · exact List.Pairwise.sublist (List.take_sublist _ _)
      (List.sorted_insertionSort smemRatioGe pairs)
  · unfold RegComputeIntensiveFilter
    rw [List.length_take]
    exact min_le_left _ _
  · intro p hp
    unfold RegComputeIntensiveFilter at hp
    have hmem := List.take_subset _ _ hp
    simpa using (List.mem_insertionSort regRatioGe).mp hmem
  · exact List.Pairwise.sublist (List.take_sublist _ _)
      (List.sorted_insertionSort regRatioGe pairs)

/-- A config whose compute-intensity ratios are `[r, 0]`, every other field
trivial; used to exhibit reordering. -/
def ratioOnlyConfig (r : Rat) : HwAlignedConfig :=
  { space_tiles := [], reduce_tiles := [], k_threshold := [],
    compute_intensive_ratio := [r, 0], single_thread_reg_usage := 0,
    space_production_threshold := 0, smem_usage := 0, threads_num := 0 }

/-- A two-element input whose compute-intensity ratios are increasing, so the
descending sort inverts the order. -/
def reorderPairs : List (HwAlignedConfig × FState) :=
  [(ratioOnlyConfig 1, { transform_steps := [], stages := 1 }),
   (ratioOnlyConfig 2, { transform_steps := [], stages := 2 })]

theorem filters_order_preservation_counterexample :
    SharedMemoryComputeIntensiveFilter reorderPairs
      = [(ratioOnlyConfig 2, { transform_steps := [], stages := 2 }),
         (ratioOnlyConfig 1, { transform_steps := [], stages := 1 })]
    ∧ ¬ (SharedMemoryComputeIntensiveFilter reorderPairs).Sublist reorderPairs := by
  constructor
  · decide
  · decide

/-! ## Progressive relaxation (C3) -/

theorem relaxLoop_succeeds {α : Type} (f : Rat → List α) :
    ∀ (k : Nat) (r0 : Rat), f (r0 - (k : Rat) * (1 / 20)) ≠ [] →
      ∃ n res, relaxLoop f n r0 = some res ∧ res ≠ [] := by
  intro k
  induction k with
  | zero =>
    intro r0 h
    simp only [Nat.cast_zero, zero_mul, sub_zero] at h
    refine ⟨1, f r0, ?_, h⟩
    simp [relaxLoop, List.isEmpty_iff, h]
  | succ k ih =>
    intro r0 h
    by_cases h0 : f r0 = []
    · have h2 : f ((r0 - 1 / 20) - (k : Rat) * (1 / 20)) ≠ [] := by
        have : (r0 - 1 / 20) - (k : Rat) * (1 / 20) = r0 - ((k : Nat) + 1 : Rat) * (1 / 20) := by
          ring
        rw [this]
        simpa using h
      obtain ⟨n, res, hn, hne⟩ := ih (r0 - 1 / 20) h2
      refine ⟨n + 1, res, ?_, hne⟩
      show (if (f r0).isEmpty then relaxLoop f n (r0 - 1 / 20) else some (f r0)) = some res
      have hie : (f r0).isEmpty = true := by simp [h0]
      rw [hie, if_pos rfl]
      exact hn
    · refine ⟨1, f r0, ?_, h0⟩
      simp [relaxLoop, List.isEmpty_iff, h0]

theorem relaxLoop_none_of_empty {α : Type} (f : Rat → List α) (hf : ∀ r, f r = []) :
    ∀ (fuel : Nat) (r : Rat), relaxLoop f fuel r = none := by
  intro fuel
  induction fuel with
  | zero => intro r; rfl
  | succ n ih => intro r; simp [relaxLoop, List.isEmpty_iff, hf, ih]

theorem foldlMax_init_le :
    ∀ (l : List (HwAlignedConfig × FState)) (init : Int),
      init ≤ l.foldl (fun m p => max m (stateGridSize p.2)) init := by
  intro l
  induction l with
  | nil => intro init; simp
  | cons x xs ih =>
    intro init
    exact le_trans (le_max_left init (stateGridSize x.2)) (ih _)

theorem foldlMax_mem_le :
    ∀ (l : List (HwAlignedConfig × FState)) (init : Int) (p : HwAlignedConfig × FState),
      p ∈ l → stateGridSize p.2 ≤ l.foldl (fun m q => max m (stateGridSize q.2)) init := by
  intro l
  induction l with
  | nil => intro init p hp; exact absurd hp (List.not_mem_nil p)
  | cons x xs ih =>
    intro init p hp
    rcases List.mem_cons.mp hp with h | h
    · subst h
      exact le_trans (le_max_right init (stateGridSize p.2)) (foldlMax_init_le xs _)
    · exact ih _ p h

theorem le_occupancyMaxGrid {pairs : List (HwAlignedConfig × FState)}
    {p : HwAlignedConfig × FState} (hp : p ∈ pairs) :
    stateGridSize p.2 ≤ occupancyMaxGrid pairs :=
  foldlMax_mem_le pairs 0 p hp

theorem occupancyMaxGrid_nonneg (pairs : List (HwAlignedConfig × FState)) :
    0 ≤ occupancyMaxGrid pairs :=
  foldlMax_init_le pairs 0

theorem floor_div_mono {a b n : Int} (hn : 0 < n) (h0 : 0 ≤ a) (h : a ≤ b) :
    floor_div a n ≤ floor_div b n := by
  unfold floor_div
  rw [Int.tdiv_eq_ediv (by omega) (by omega), Int.tdiv_eq_ediv (by omega) (by omega)]
  exact Int.ediv_le_ediv hn (by omega)

theorem exists_relax_index (q r0 : Rat) : ∃ k : Nat, r0 - (k : Rat) * (1 / 20) < q := by
  obtain ⟨k, hk⟩ := exists_nat_gt ((r0 - q) * 20)
  refine ⟨k, ?_⟩
  have h20 : (0 : Rat) < 20 := by norm_num
  nlinarith [hk]

theorem paddingLoop_nonempty (pairs : List (HwAlignedConfig × FState)) (hne : pairs ≠ []) :
    ∃ n res, PaddingFilterLoop pairs n = some res ∧ res ≠ [] := by
  obtain ⟨p, rest, rfl⟩ := List.exists_cons_of_ne_nil hne
  obtain ⟨k, hk⟩ := exists_relax_index (statePaddingPenalty p.2) (19 / 20)
  apply relaxLoop_succeeds _ k
  intro hempty
  have hp : p ∈ PaddingFilter ((19 : Rat) / 20 - (k : Rat) * (1 / 20)) (p :: rest) := by
    unfold PaddingFilter
    rw [List.mem_filter]
    exact ⟨List.mem_cons_self p rest, by simpa using hk⟩
  rw [hempty] at hp
  exact absurd hp (List.not_mem_nil p)

theorem occupancyLoop_nonempty (t : FilterTask) (pairs : List (HwAlignedConfig × FState))
    (hglb : 0 < t.glbmem_sm_partition0)
    (h : ∃ p ∈ pairs, 0 ≤ stateGridSize p.2
           ∧ t.smem_sm_partition1 ≤ smTimesOf t (stateGridSize p.2)) :
    ∃ n res, OccupancyFilterLoop t pairs n = some res ∧ res ≠ [] := by
  obtain ⟨p, hp, hg0, hsm⟩ := h
  obtain ⟨k, hk⟩ := exists_relax_index (occupancyPenalty t (stateGridSize p.2)) (19 / 20)
  apply relaxLoop_succeeds _ k
  intro hempty
  have hsmle : smTimesOf t (stateGridSize p.2)
      ≤ floor_div (occupancyMaxGrid pairs) t.glbmem_sm_partition0 :=
    floor_div_mono hglb hg0 (le_occupancyMaxGrid hp)
  have hwin : smTimesOf t (stateGridSize p.2)
      ∈ occupancyWindow t (floor_div (occupancyMaxGrid pairs) t.glbmem_sm_partition0) := by
    have hx : (smTimesOf t (stateGridSize p.2) - t.smem_sm_partition1).toNat
        ∈ List.range ((floor_div (occupancyMaxGrid pairs) t.glbmem_sm_partition0
            + 1 - t.smem_sm_partition1).toNat) :=
      List.mem_range.mpr (by omega)
    have h3 := List.mem_map_of_mem
      (fun (k : Nat) => t.smem_sm_partition1 + (k : Int)) hx
    have h4 : t.smem_sm_partition1
        + ((smTimesOf t (stateGridSize p.2) - t.smem_sm_partition1).toNat : Int)
        = smTimesOf t (stateGridSize p.2) := by omega
    unfold occupancyWindow
    rw [← h4]
    exact h3
  have hpmem : p ∈ occupancyPass t pairs
      (floor_div (occupancyMaxGrid pairs) t.glbmem_sm_partition0)
      ((19 : Rat) / 20 - (k : Rat) * (1 / 20)) := by
    unfold occupancyPass
    rw [List.mem_flatten]
    refine ⟨pairs.filter fun q =>
      decide (smTimesOf t (stateGridSize q.2) = smTimesOf t (stateGridSize p.2)
              ∧ (19 : Rat) / 20 - (k : Rat) * (1 / 20) < occupancyPenalty t (stateGridSize q.2)),
      ?_, ?_⟩
    · rw [List.mem_map]
      exact ⟨smTimesOf t (stateGridSize p.2), hwin, rfl⟩
    · rw [List.mem_filter]
      exact ⟨hp, by simpa using hk⟩
  rw [hempty] at hpmem
  exact absurd hpmem (List.not_mem_nil p)

/-- C3 (amended): on any non-empty input the `PaddingFilter` relaxation loop
terminates with a non-empty result; the `OccupancyFilter` relaxation loop
terminates with a non-empty result provided some config's SM-multiple reaches
the window's fixed lower bound `smem_sm_partition[1]` (without that condition
it can loop forever; see the counterexample). -/
theorem progressive_relaxation_filters (t : FilterTask)
    (pairs : List (HwAlignedConfig × FState)) (hne : pairs ≠ [])
    (hglb : 0 < t.glbmem_sm_partition0) :
    (∃ n res, PaddingFilterLoop pairs n = some res ∧ res ≠ [])
    ∧ ((∃ p ∈ pairs, 0 ≤ stateGridSize p.2
          ∧ t.smem_sm_partition1 ≤ smTimesOf t (stateGridSize p.2)) →
        ∃ n res, OccupancyFilterLoop t pairs n = some res ∧ res ≠ []) :=
  ⟨paddingLoop_nonempty pairs hne, fun h => occupancyLoop_nonempty t pairs hglb h⟩

/-- A small task for instantiating the relaxation theorem. -/
def relaxSampleTask : FilterTask :=
  { warp_size := 32, compute_sm_partition1 := 4, smem_sm_partition0 := 1,
    smem_sm_partition1 := 1, glbmem_sm_partition0 := 1, num_cores := 4,
    max_reg_per_sm := 65536, max_smem_usage_per_sm := 65536,
    lt_ratio := 2, gt_ratio := 2 }

/-- A one-pair input whose state has one 3-factor split step. -/
def relaxSamplePairs : List (HwAlignedConfig × FState) :=
  [(ratioOnlyConfig 1, { transform_steps := [TStep.split 8 [1, 2, 2]], stages := 3 })]

theorem progressive_relaxation_filters_witness :
    (∃ n res, PaddingFilterLoop relaxSamplePairs n = some res ∧ res ≠ [])
    ∧ ((∃ p ∈ relaxSamplePairs, 0 ≤ stateGridSize p.2
          ∧ relaxSampleTask.smem_sm_partition1 ≤ smTimesOf relaxSampleTask (stateGridSize p.2)) →
        ∃ n res, OccupancyFilterLoop relaxSampleTask relaxSamplePairs n = some res ∧ res ≠ []) :=
  progressive_relaxation_filters relaxSampleTask relaxSamplePairs (by decide) (by decide)

/-- A task whose SM-multiple window starts at 2. -/
def occCexTask : FilterTask :=
  { warp_size := 32, compute_sm_partition1 := 1, smem_sm_partition0 := 1,
    smem_sm_partition1 := 2, glbmem_sm_partition0 := 1, num_cores := 1,
    max_reg_per_sm := 65536, max_smem_usage_per_sm := 65536,
    lt_ratio := 1, gt_ratio := 1 }

/-- A non-empty input whose single config has grid size 1, hence SM-multiple
1, strictly below the window's lower bound 2. -/
def occCexPairs : List (HwAlignedConfig × FState) :=
  [(ratioOnlyConfig 1, { transform_steps := [TStep.split 1 [1, 1, 1]], stages := 3 })]

theorem occupancy_filter_nontermination_counterexample :
    occCexPairs ≠ []
    ∧ ∀ fuel : Nat, OccupancyFilterLoop occCexTask occCexPairs fuel = none := by
  constructor
  · decide
  · intro fuel
    apply relaxLoop_none_of_empty
    intro r
    unfold occupancyPass
    have hwin : occupancyWindow occCexTask
        (floor_div (occupancyMaxGrid occCexPairs) occCexTask.glbmem_sm_partition0) = [] := by
      decide
    rw [hwin]
    rfl

/-! ## EvolutionarySearch retention heap
    (src/tvm/src/auto_scheduler/search_policy/sketch_policy.cc,
     SketchPolicyNode::EvolutionarySearch)

A candidate state is abstracted to its canonical string key (`State::ToStr`),
here a natural number, paired with the cost model's score for the current
generation (`pop_scores[i]`); `InferBound` and `PruneInvalidState` are applied
before scoring, so the scored generation below is the post-prune one. -/

abbrev ScoredState := Nat × Rat

/-- The number of elements of `l` scored strictly higher than `x` ("x is
among the k best of l" reads `cntGreater l x < k`). -/
def cntGreater (l : List ScoredState) (x : ScoredState) : Nat :=
  l.countP fun y => decide (x.2 < y.2)

/-- The minimum-score element of the retention heap (`heap.front()` of the
min-at-top heap); the earliest occurrence wins among ties. -/
def heapMin : List ScoredState → Option ScoredState
  | [] => none
  | x :: xs =>
    match heapMin xs with
    | none => some x
    | some m => if m.2 < x.2 then some m else some x

/-- One insertion into the bounded retention heap — the body of the
`for (i ∈ pnow->size())` loop: skip states whose key is already in `in_heap`;
grow the heap while it is below `out_size`; once full, replace the current
minimum whenever the new score strictly exceeds it (`pop_scores[i] >
heap.front().second`), updating the key set accordingly. -/
def heapPush (outSize : Nat) (acc : List ScoredState × List Nat) (x : ScoredState) :
    List ScoredState × List Nat :=
  if x.1 ∈ acc.2 then acc
  else if acc.1.length < outSize then (acc.1 ++ [x], x.1 :: acc.2)
  else
    match heapMin acc.1 with
    | none => acc
    | some m =>
      if m.2 < x.2 then ((acc.1.erase m) ++ [x], x.1 :: (acc.2.erase m.1))
      else acc

/-- Fold a scored generation into the retention heap. -/
def processGen (outSize : Nat) (acc : List ScoredState × List Nat)
    (gen : List ScoredState) : List ScoredState × List Nat :=
  gen.foldl (heapPush outSize) acc

/-- Descending-score order of the final `std::sort(heap.begin(), heap.end(),
cmp)` (`cmp` = score strictly greater; we sort with the corresponding
non-strict total order). -/
def scoreGe (a b : ScoredState) : Prop := b.2 ≤ a.2

instance : DecidableRel scoreGe := fun a b =>
  inferInstanceAs (Decidable (_ ≤ _))

instance : IsTotal ScoredState scoreGe := ⟨fun a b => le_total b.2 a.2⟩

instance : IsTrans ScoredState scoreGe := ⟨fun _ _ _ h1 h2 => le_trans h2 h1⟩

/-- `EvolutionarySearch` in the `num_iters = 0` case: the single generation
is folded into the retention heap (whose key set `in_heap` starts as the
measured-state set `measured_states_set_`), the terminal-generation check
fires before any mutation, and the heap contents are returned sorted
descending by score. -/
def EvolutionarySearch (scoredPop : List ScoredState) (outSize : Nat)
    (measured : List Nat) : List ScoredState :=
  ((processGen outSize ([], measured) scoredPop).1).insertionSort scoreGe

theorem heapMin_eq_none {l : List ScoredState} : heapMin l = none ↔ l = [] := by
  cases l with
  | nil => simp [heapMin]
  | cons x xs =>
    simp only [heapMin]
    cases h : heapMin xs with
    | none => simp
    | some m =>
      constructor
      · intro hc
        by_cases hm : m.2 < x.2 <;> simp [hm] at hc
      · intro hc
        exact List.noConfusion hc

theorem heapMin_mem {l : List ScoredState} {m : ScoredState} (h : heapMin l = some m) :
    m ∈ l := by
  induction l generalizing m with
  | nil => exact Option.noConfusion h
  | cons x xs ih =>
    simp only [heapMin] at h
    cases h2 : heapMin xs with
    | none =>
      simp only [h2] at h
      cases h
      exact List.mem_cons_self _ _
    | some m2 =>
      simp only [h2] at h
      by_cases hm : m2.2 < x.2
      · rw [if_pos hm] at h
        cases h
        exact List.mem_cons_of_mem _ (ih h2)
      · rw [if_neg hm] at h
        cases h
        exact List.mem_cons_self _ _

theorem heapMin_le {l : List ScoredState} {m : ScoredState} (h : heapMin l = some m) :
    ∀ y ∈ l, m.2 ≤ y.2 := by
  induction l generalizing m with
  | nil => exact Option.noConfusion h
  | cons x xs ih =>
    intro y hy
    simp only [heapMin] at h
    cases h2 : heapMin xs with
    | none =>
      simp only [h2] at h
      cases h
      rcases List.mem_cons.mp hy with rfl | hy2
      · exact le_refl _
      · exact absurd (heapMin_eq_none.mp h2 ▸ hy2) (List.not_mem_nil y)
    | some m2 =>
      simp only [h2] at h
      by_cases hm : m2.2 < x.2
      · rw [if_pos hm] at h
        cases h
        rcases List.mem_cons.mp hy with rfl | hy2
        · exact le_of_lt hm
        · exact ih h2 y hy2
      · rw [if_neg hm] at h
        cases h
        rcases List.mem_cons.mp hy with rfl | hy2
        · exact le_refl _
        · exact le_trans (not_lt.mp hm) (ih h2 y hy2)

theorem heapPush_skip (outSize : Nat) (acc : List ScoredState × List Nat)
    (x : ScoredState) (h1 : x.1 ∈ acc.2) : heapPush outSize acc x = acc := by
  unfold heapPush
  rw [if_pos h1]

theorem heapPush_grow (outSize : Nat) (acc : List ScoredState × List Nat)
    (x : ScoredState) (h1 : x.1 ∉ acc.2) (h2 : acc.1.length < outSize) :
    heapPush outSize acc x = (acc.1 ++ [x], x.1 :: acc.2) := by
  unfold heapPush
  rw [if_neg h1, if_pos h2]

theorem heapPush_empty_full (outSize : Nat) (acc : List ScoredState × List Nat)
    (x : ScoredState) (h1 : x.1 ∉ acc.2) (h2 : ¬ acc.1.length < outSize)
    (h3 : heapMin acc.1 = none) : heapPush outSize acc x = acc := by
  unfold heapPush
  rw [if_neg h1, if_neg h2]
  simp only [h3]

theorem heapPush_replace (outSize : Nat) (acc : List ScoredState × List Nat)
    (x m : ScoredState) (h1 : x.1 ∉ acc.2) (h2 : ¬ acc.1.length < outSize)
    (h3 : heapMin acc.1 = some m) (h4 : m.2 < x.2) :
    heapPush outSize acc x = ((acc.1.erase m) ++ [x], x.1 :: (acc.2.erase m.1)) := by
  unfold heapPush
  rw [if_neg h1, if_neg h2]
  simp only [h3]
  rw [if_pos h4]

theorem heapPush_keep (outSize : Nat) (acc : List ScoredState × List Nat)
    (x m : ScoredState) (h1 : x.1 ∉ acc.2) (h2 : ¬ acc.1.length < outSize)
    (h3 : heapMin acc.1 = some m) (h4 : ¬ m.2 < x.2) :
    heapPush outSize acc x = acc := by
  unfold heapPush
  rw [if_neg h1, if_neg h2]
  simp only [h3]
  rw [if_neg h4]

theorem heapPush_length_le {outSize : Nat} {acc : List ScoredState × List Nat}
    (h : acc.1.length ≤ outSize) (x : ScoredState) :
    (heapPush outSize acc x).1.length ≤ outSize := by
  by_cases h1 : x.1 ∈ acc.2
  · rw [heapPush_skip outSize acc x h1]; exact h
  · by_cases h2 : acc.1.length < outSize
    · rw [heapPush_grow outSize acc x h1 h2]
      simp only [List.length_append, List.length_singleton]
      omega
    · cases h3 : heapMin acc.1 with
      | none => rw [heapPush_empty_full outSize acc x h1 h2 h3]; exact h
      | some m =>
        have hm := heapMin_mem h3
        have hlen : (acc.1.erase m).length = acc.1.length - 1 :=
          List.length_erase_of_mem hm
        have hpos : 1 ≤ acc.1.length := List.length_pos.mpr (List.ne_nil_of_mem hm)
        by_cases h4 : m.2 < x.2
        · rw [heapPush_replace outSize acc x m h1 h2 h3 h4]
          simp only [List.length_append, List.length_singleton, hlen]
          omega
        · rw [heapPush_keep outSize acc x m h1 h2 h3 h4]; exact h

theorem processGen_length_le {outSize : Nat} {acc : List ScoredState × List Nat}
    (h : acc.1.length ≤ outSize) (gen : List ScoredState) :
    (processGen outSize acc gen).1.length ≤ outSize := by
  induction gen generalizing acc with
  | nil => exact h
  | cons x xs ih => exact ih (heapPush_length_le h x)

theorem cntGreater_append_single (l : List ScoredState) (x y : ScoredState) :
    cntGreater (l ++ [x]) y = cntGreater l y + (if y.2 < x.2 then 1 else 0) := by
  unfold cntGreater
  rw [List.countP_append]
  by_cases h : y.2 < x.2 <;> simp [List.countP_cons, h]

theorem cntGreater_mono_append (l : List ScoredState) (x y : ScoredState) :
    cntGreater l y ≤ cntGreater (l ++ [x]) y := by
  rw [cntGreater_append_single]
  omega

theorem cntGreater_lt_length {l : List ScoredState} {y : ScoredState} (hy : y ∈ l) :
    cntGreater l y < l.length := by
  unfold cntGreater
  induction l with
  | nil => exact absurd hy (List.not_mem_nil y)
  | cons a l ih =>
    rw [List.countP_cons, List.length_cons]
    rcases List.mem_cons.mp hy with rfl | hyl
    · have h2 : List.countP (fun z => decide (y.2 < z.2)) l ≤ l.length :=
        List.countP_le_length _
      have e1 : (decide (y.2 < y.2)) = false := by simp
      rw [e1]
      simp only [Bool.false_eq_true, if_false]
      omega
    · have := ih hyl
      by_cases h2 : y.2 < a.2 <;> simp only [h2, decide_True, decide_False, if_true,
        Bool.false_eq_true, if_false] <;> omega

theorem cntGreater_le_of_score_le {l : List ScoredState} {a b : ScoredState}
    (hab : a.2 ≤ b.2) : cntGreater l b ≤ cntGreater l a := by
  unfold cntGreater
  refine List.countP_mono_left ?_
  intro y _ hy
  simp only [decide_eq_true_eq] at hy ⊢
  exact lt_of_le_of_lt hab hy

theorem cntGreater_lt_of_mem_gt {l : List ScoredState} {a b : ScoredState}
    (hb : b ∈ l) (hab : a.2 < b.2) : cntGreater l b < cntGreater l a := by
  unfold cntGreater
  induction l with
  | nil => exact absurd hb (List.not_mem_nil b)
  | cons c l ih =>
    rw [List.countP_cons, List.countP_cons]
    rcases List.mem_cons.mp hb with rfl | hbl
    · have hmono : l.countP (fun z => decide (b.2 < z.2))
          ≤ l.countP (fun z => decide (a.2 < z.2)) := by
        refine List.countP_mono_left ?_
        intro y _ hy
        simp only [decide_eq_true_eq] at hy ⊢
        exact lt_trans hab hy
      have e1 : (decide (b.2 < b.2)) = false := by simp
      have e2 : (decide (a.2 < b.2)) = true := by simp [hab]
      rw [e1, e2]
      simp only [Bool.false_eq_true, if_false, if_true]
      omega
    · have := ih hbl
      by_cases h : b.2 < c.2
      · have h2 : a.2 < c.2 := lt_trans hab h
        simp only [h, h2, decide_True, if_true]
        omega
      · by_cases h2 : a.2 < c.2 <;> simp only [h, h2, decide_True, decide_False,
          if_true, Bool.false_eq_true, if_false] <;> omega

/-- Invariant of the retention heap after folding the prefix `processed` of
the scored generation: the heap holds exactly the states of `processed` with
fewer than `outSize` strictly better scores, its size is
`min outSize |processed|`, it has no duplicates, and the key set `in_heap`
consists of the measured keys plus keys of processed states. -/
structure RetainInv (outSize : Nat) (meas : List Nat) (processed : List ScoredState)
    (hp : List ScoredState) (ihp : List Nat) : Prop where
  mem : ∀ y, y ∈ hp ↔ (y ∈ processed ∧ cntGreater processed y < outSize)
  len : hp.length = min outSize processed.length
  keys : ∀ y ∈ hp, y.1 ∈ ihp
  nd : hp.Nodup
  idx : ∀ i ∈ ihp, i ∈ meas ∨ i ∈ processed.map Prod.fst

theorem retainInv_nil (outSize : Nat) (meas : List Nat) :
    RetainInv outSize meas [] [] meas := by
  refine ⟨?_, ?_, ?_, ?_, ?_⟩
  · intro y
    simp
  · simp
  · intro y hy
    exact absurd hy (List.not_mem_nil y)
  · exact List.nodup_nil
  · intro i hi
    exact Or.inl hi

theorem heapPush_inv {outSize : Nat} {meas : List Nat}
    {processed hp : List ScoredState} {ihp : List Nat} {x : ScoredState}
    (inv : RetainInv outSize meas processed hp ihp)
    (hxk : x.1 ∉ processed.map Prod.fst) (hxm : x.1 ∉ meas)
    (hkeyinj : ∀ y ∈ processed, ∀ z ∈ processed, y ≠ z → y.1 ≠ z.1)
    (hscoinj : ∀ y ∈ processed, ∀ z ∈ processed, y ≠ z → y.2 ≠ z.2)
    (hxs : ∀ y ∈ processed, y.2 ≠ x.2) :
    RetainInv outSize meas (processed ++ [x])
      (heapPush outSize (hp, ihp) x).1 (heapPush outSize (hp, ihp) x).2 := by
  have hx1 : x.1 ∉ ihp := by
    intro hc
    rcases inv.idx x.1 hc with h | h
    · exact hxm h
    · exact hxk h
  have hsub : ∀ y ∈ hp, y ∈ processed := fun y hy => ((inv.mem y).mp hy).1
  have hxP : x ∉ processed := fun hc => (hxs x hc) rfl
  have hxhp : x ∉ hp := fun hc => hxP (hsub x hc)
  by_cases h2 : hp.length < outSize
  · -- heap not yet full: always insert
    have hPlen : processed.length < outSize := by
      have := inv.len
      omega
    simp only [heapPush_grow outSize (hp, ihp) x hx1 h2]
    refine ⟨?_, ?_, ?_, ?_, ?_⟩
    · intro y
      constructor
      · intro hy
        rcases List.mem_append.mp hy with hyl | hyr
        · exact ⟨List.mem_append_left _ (hsub y hyl),
            lt_of_lt_of_le (cntGreater_lt_length (List.mem_append_left _ (hsub y hyl)))
              (by simp; omega)⟩
        · have hyx : y = x := by simpa using hyr
          subst hyx
          exact ⟨List.mem_append_right _ (List.mem_singleton_self _),
            lt_of_lt_of_le (cntGreater_lt_length (List.mem_append_right _
              (List.mem_singleton_self _))) (by simp; omega)⟩
      · rintro ⟨hyP, _⟩
        rcases List.mem_append.mp hyP with hyl | hyr
        · refine List.mem_append_left _ ?_
          rw [inv.mem y]
          exact ⟨hyl, lt_of_lt_of_le (cntGreater_lt_length hyl) (le_of_lt hPlen)⟩
        · exact List.mem_append_right _ hyr
    · have := inv.len
      simp only [List.length_append, List.length_singleton]
      omega
    · intro y hy
      rcases List.mem_append.mp hy with hyl | hyr
      · exact List.mem_cons_of_mem _ (inv.keys y hyl)
      · have hyx : y = x := by simpa using hyr
        subst hyx
        exact List.mem_cons_self _ _
    · refine List.Nodup.append inv.nd (List.nodup_singleton x) ?_
      intro a ha hb
      have : a = x := by simpa using hb
      subst this
      exact hxhp ha
    · intro i hi
      rcases List.mem_cons.mp hi with rfl | hi2
      · exact Or.inr (by simp)
      · rcases inv.idx i hi2 with h | h
        · exact Or.inl h
        · exact Or.inr (by simp [h])
  · -- heap full
    have hlenk : hp.length = outSize ∧ outSize ≤ processed.length := by
      have := inv.len
      omega
    cases h3 : heapMin hp with
    | none =>
      have hpnil : hp = [] := heapMin_eq_none.mp h3
      have hk0 : outSize = 0 := by
        have := hlenk.1
        rw [hpnil] at this
        simpa using this.symm
      simp only [heapPush_empty_full outSize (hp, ihp) x hx1 h2 h3]
      refine ⟨?_, ?_, ?_, ?_, ?_⟩
      · intro y
        rw [hpnil, hk0]
        simp
      · rw [hpnil, hk0]
        simp
      · intro y hy
        exact inv.keys y hy
      · exact inv.nd
      · intro i hi
        rcases inv.idx i hi with h | h
        · exact Or.inl h
        · exact Or.inr (by simp [h])
    | some m =>
      have hmhp : m ∈ hp := heapMin_mem h3
      have hmle : ∀ y ∈ hp, m.2 ≤ y.2 := heapMin_le h3
      have hmP : m ∈ processed := hsub m hmhp
      have hk1 : 1 ≤ outSize := by
        have := hlenk.1
        have := List.length_pos.mpr (List.ne_nil_of_mem hmhp)
        omega
      -- every heap element other than the minimum scores strictly above it
      have hgt : ∀ y ∈ hp, y ≠ m → m.2 < y.2 := by
        intro y hy hne
        have h1 := hmle y hy
        have h2 := hscoinj y (hsub y hy) m hmP hne
        exact lt_of_le_of_ne h1 (Ne.symm h2)
      -- the minimum is the outSize-th best of the processed prefix
      have hcgm : cntGreater processed m = outSize - 1 := by
        have hub : cntGreater processed m < outSize := ((inv.mem m).mp hmhp).2
        have hsubf : hp.erase m ⊆ processed.filter (fun z => decide (m.2 < z.2)) := by
          intro y hy
          have hyh : y ≠ m ∧ y ∈ hp := (List.Nodup.mem_erase_iff inv.nd).mp hy
          rw [List.mem_filter]
          exact ⟨hsub y hyh.2, by simpa using hgt y hyh.2 hyh.1⟩
        have hndE : (hp.erase m).Nodup := List.Nodup.erase m inv.nd
        have hlb : (hp.erase m).length
            ≤ (processed.filter (fun z => decide (m.2 < z.2))).length :=
          (List.subperm_of_subset hndE hsubf).length_le
        have heq : (hp.erase m).length = hp.length - 1 := List.length_erase_of_mem hmhp
        have hcf : cntGreater processed m
            = (processed.filter (fun z => decide (m.2 < z.2))).length := by
          unfold cntGreater
          rw [List.countP_eq_length_filter]
        have := hlenk.1
        omega
      by_cases h4 : m.2 < x.2
      · -- replace the minimum with the new state
        have hmx : m ≠ x := fun hc => absurd (hc ▸ rfl) (ne_of_lt h4)
        simp only [heapPush_replace outSize (hp, ihp) x m hx1 h2 h3 h4]
        refine ⟨?_, ?_, ?_, ?_, ?_⟩
        · intro y
          constructor
          · intro hy
            rcases List.mem_append.mp hy with hyl | hyr
            · have hyh : y ≠ m ∧ y ∈ hp := (List.Nodup.mem_erase_iff inv.nd).mp hyl
              have hyP : y ∈ processed := hsub y hyh.2
              refine ⟨List.mem_append_left _ hyP, ?_⟩
              rw [cntGreater_append_single]
              have hylt : cntGreater processed y < cntGreater processed m :=
                cntGreater_lt_of_mem_gt hyP (hgt y hyh.2 hyh.1)
              by_cases hc : y.2 < x.2 <;> simp only [hc, if_true, if_false] <;> omega
            · have hyx : y = x := by simpa using hyr
              subst hyx
              refine ⟨List.mem_append_right _ (List.mem_singleton_self y), ?_⟩
              rw [cntGreater_append_single]
              have : cntGreater processed y ≤ cntGreater processed m :=
                cntGreater_le_of_score_le (le_of_lt h4)
              simp only [lt_irrefl, if_false]
              omega
          · rintro ⟨hyP, hycg⟩
            rcases List.mem_append.mp hyP with hyl | hyr
            · have hym : y ≠ m := by
                intro hc
                subst hc
                rw [cntGreater_append_single] at hycg
                simp only [h4, if_true] at hycg
                omega
              have hyhp : y ∈ hp := by
                rw [inv.mem y]
                refine ⟨hyl, ?_⟩
                exact lt_of_le_of_lt (cntGreater_mono_append processed x y) hycg
              exact List.mem_append_left _
                ((List.Nodup.mem_erase_iff inv.nd).mpr ⟨hym, hyhp⟩)
            · exact List.mem_append_right _ hyr
        · have heq : (hp.erase m).length = hp.length - 1 := List.length_erase_of_mem hmhp
          have := hlenk.1
          have := hlenk.2
          simp only [List.length_append, List.length_singleton, heq]
          omega
        · intro y hy
          rcases List.mem_append.mp hy with hyl | hyr
          · have hyh : y ≠ m ∧ y ∈ hp := (List.Nodup.mem_erase_iff inv.nd).mp hyl
            have hy1 : y.1 ∈ ihp := inv.keys y hyh.2
            have hy1m : y.1 ≠ m.1 := hkeyinj y (hsub y hyh.2) m hmP hyh.1
            exact List.mem_cons_of_mem _ ((List.mem_erase_of_ne hy1m).mpr hy1)
          · have hyx : y = x := by simpa using hyr
            subst hyx
            exact List.mem_cons_self _ _
        · refine List.Nodup.append (List.Nodup.erase m inv.nd) (List.nodup_singleton x) ?_
          intro a ha hb
          have : a = x := by simpa using hb
          subst this
          exact hxhp (List.mem_of_mem_erase ha)
        · intro i hi
          rcases List.mem_cons.mp hi with rfl | hi2
          · exact Or.inr (by simp)
          · rcases inv.idx i (List.mem_of_mem_erase hi2) with h | h
            · exact Or.inl h
            · exact Or.inr (by simp [h])
      · -- new state scores at or below the minimum: heap unchanged
        have hxltm : x.2 < m.2 :=
          lt_of_le_of_ne (not_lt.mp h4) (fun hc => (hxs m hmP) hc.symm)
        simp only [heapPush_keep outSize (hp, ihp) x m hx1 h2 h3 h4]
        refine ⟨?_, ?_, ?_, ?_, ?_⟩
        · intro y
          constructor
          · intro hy
            have hyP : y ∈ processed := hsub y hy
            refine ⟨List.mem_append_left _ hyP, ?_⟩
            rw [cntGreater_append_single]
            have hycg : cntGreater processed y < outSize := ((inv.mem y).mp hy).2
            have hnc : ¬ (y.2 < x.2) := by
              have := hmle y hy
              intro hc
              exact absurd (lt_of_le_of_lt this hc) (not_lt.mpr (le_of_lt hxltm))
            simp only [hnc, if_false]
            exact hycg
          · rintro ⟨hyP, hycg⟩
            rcases List.mem_append.mp hyP with hyl | hyr
            · rw [inv.mem y]
              refine ⟨hyl, ?_⟩
              exact lt_of_le_of_lt (cntGreater_mono_append processed x y) hycg
            · exfalso
              have hyx : y = x := by simpa using hyr
              subst hyx
              -- the full heap witnesses outSize elements better than x
              have hsubf : hp ⊆ (processed ++ [y]).filter
                  (fun z => decide (y.2 < z.2)) := by
                intro z hz
                rw [List.mem_filter]
                refine ⟨List.mem_append_left _ (hsub z hz), ?_⟩
                have := hmle z hz
                simpa using lt_of_lt_of_le hxltm this
              have hlb : hp.length ≤ ((processed ++ [y]).filter
                  (fun z => decide (y.2 < z.2))).length :=
                (List.subperm_of_subset inv.nd hsubf).length_le
              have hcf : cntGreater (processed ++ [y]) y
                  = ((processed ++ [y]).filter (fun z => decide (y.2 < z.2))).length := by
                unfold cntGreater
                rw [List.countP_eq_length_filter]
              have := hlenk.1
              omega
        · have := hlenk.1
          have := hlenk.2
          simp only [List.length_append, List.length_singleton]
          omega
        · exact inv.keys
        · exact inv.nd
        · intro i hi
          rcases inv.idx i hi with h | h
          · exact Or.inl h
          · exact Or.inr (by simp [h])

theorem processGen_inv {outSize : Nat} {meas : List Nat} :
    ∀ (rest processed hp : List ScoredState) (ihp : List Nat),
      RetainInv outSize meas processed hp ihp →
      ((processed ++ rest).map Prod.fst).Nodup →
      (processed ++ rest).Pairwise (fun a b => a.2 ≠ b.2) →
      (∀ y ∈ processed ++ rest, y.1 ∉ meas) →
      RetainInv outSize meas (processed ++ rest)
        (processGen outSize (hp, ihp) rest).1 (processGen outSize (hp, ihp) rest).2 := by
  intro rest
  induction rest with
  | nil =>
    intro processed hp ihp inv _ _ _
    simpa [processGen] using inv
  | cons x xs ih =>
    intro processed hp ihp inv hnd hpw hms
    have hassoc : processed ++ x :: xs = (processed ++ [x]) ++ xs := by simp
    have hndm : (processed.map Prod.fst ++ x.1 :: xs.map Prod.fst).Nodup := by
      simpa using hnd
    have hxk : x.1 ∉ processed.map Prod.fst := by
      rcases List.nodup_append.mp hndm with ⟨_, _, hdisj⟩
      intro hc
      exact hdisj hc (List.mem_cons_self _ _)
    have hxm : x.1 ∉ meas := hms x (by simp)
    have hcross : ∀ a ∈ processed, ∀ b ∈ x :: xs, a.2 ≠ b.2 :=
      (List.pairwise_append.mp hpw).2.2
    have hxs : ∀ y ∈ processed, y.2 ≠ x.2 := fun y hy =>
      hcross y hy x (List.mem_cons_self _ _)
    have hpwP : processed.Pairwise (fun a b => a.2 ≠ b.2) :=
      (List.pairwise_append.mp hpw).1
    have hndP : (processed.map Prod.fst).Nodup := (List.nodup_append.mp hndm).1
    have hkeyinj : ∀ y ∈ processed, ∀ z ∈ processed, y ≠ z → y.1 ≠ z.1 := by
      intro y hy z hz hne hc
      exact hne (List.inj_on_of_nodup_map hndP hy hz hc)
    have hscoinj : ∀ y ∈ processed, ∀ z ∈ processed, y ≠ z → y.2 ≠ z.2 := by
      intro y hy z hz hne
      exact List.Pairwise.forall (fun a b h => Ne.symm h) hpwP hy hz hne
    have step := heapPush_inv inv hxk hxm hkeyinj hscoinj hxs
    have hgoal : processGen outSize (hp, ihp) (x :: xs)
        = processGen outSize ((heapPush outSize (hp, ihp) x).1,
            (heapPush outSize (hp, ihp) x).2) xs := by
      simp [processGen]
    rw [hassoc, hgoal]
    refine ih (processed ++ [x]) _ _ step ?_ ?_ ?_
    · rw [← hassoc]; exact hnd
    · rw [← hassoc]; exact hpw
    · rw [← hassoc]; exact hms

/-- C5: `EvolutionarySearch` with `num_iters = 0`: in general the returned
list has at most `out_size` entries and is sorted descending by score; with
`out_size = 5`, a scored population of at least 5 states with pairwise
distinct keys and scores, none measured before, the result consists of
exactly the 5 highest-scored states (those with fewer than 5 strictly better
scores), sorted descending. -/
theorem EvolutionarySearch_top_selection
    (scoredPop : List ScoredState) (outSize : Nat) (measured : List Nat) :
    ((EvolutionarySearch scoredPop outSize measured).length ≤ outSize
     ∧ (EvolutionarySearch scoredPop outSize measured).Sorted scoreGe)
    ∧ ((scoredPop.map Prod.fst).Nodup →
       scoredPop.Pairwise (fun a b => a.2 ≠ b.2) →
       (∀ y ∈ scoredPop, y.1 ∉ measured) →
       outSize = 5 → 5 ≤ scoredPop.length →
       (EvolutionarySearch scoredPop outSize measured).length = 5
       ∧ (∀ y, y ∈ EvolutionarySearch scoredPop outSize measured ↔
            (y ∈ scoredPop ∧ cntGreater scoredPop y < 5))) := by
  constructor
  · constructor
    · unfold EvolutionarySearch
      rw [List.length_insertionSort]
      exact processGen_length_le (by simp) scoredPop
    · exact List.sorted_insertionSort scoreGe _
  · intro hnd hpw hms h5 hlen
    subst h5
    have inv := processGen_inv scoredPop [] [] measured (retainInv_nil 5 measured)
      (by simpa using hnd) (by simpa using hpw) (by simpa using hms)
    simp only [List.nil_append] at inv
    constructor
    · unfold EvolutionarySearch
      rw [List.length_insertionSort]
      have := inv.len
      omega
    · intro y
      unfold EvolutionarySearch
      rw [List.mem_insertionSort]
      exact inv.mem y

/-- A six-state scored population with distinct keys and scores. -/
def evoSamplePop : List ScoredState :=
  [(0, 10), (1, 7), (2, 93), (3, 4), (4, 55), (5, 31)]

theorem EvolutionarySearch_top_selection_witness :
    (EvolutionarySearch evoSamplePop 5 []).length = 5
    ∧ (∀ y, y ∈ EvolutionarySearch evoSamplePop 5 [] ↔
        (y ∈ evoSamplePop ∧ cntGreater evoSamplePop y < 5)) :=
  (EvolutionarySearch_top_selection evoSamplePop 5 []).2
    (by decide) (by decide) (by decide) rfl (by decide)

/-! ## Search with n_trials ≤ 1 (sketch_policy.cc, SketchPolicyNode::Search) -/

/-- The externally visible actions of the measuring branch of `Search`. -/
inductive SearchEffect where
  | measure
  | costModelUpdate
  | dispatchLoop
deriving DecidableEq, Repr

/-- `SketchPolicyNode::Search`: for `n_trials ≤ 1` the function runs one
internal `SearchOneRound(0)` — which returns the evolutionary search's ranked
output over that round's population — checks it is non-empty
(`ICHECK_GT(best_states.size(), 0)`, modelled as `none` on failure), and
returns `best_states[0]` paired with an empty instance-dispatch map, emitting
no effects.  The measuring loop taken for `n_trials > 1` is abstracted as the
`fullLoop` argument. -/
def Search (nTrials : Int) (scoredPop : List ScoredState) (outSize : Nat)
    (measured : List Nat)
    (fullLoop : Option (List ScoredState × List (Nat × Nat)) × List SearchEffect) :
    Option (List ScoredState × List (Nat × Nat)) × List SearchEffect :=
  if nTrials ≤ 1 then
    match EvolutionarySearch scoredPop outSize measured with
    | [] => (none, [])
    | best0 :: _ => (some ([best0], []), [])
  else fullLoop

/-- C10: for `n_trials ≤ 1`, `Search` runs a single internal search round and
returns exactly one state — the round's best (its score bounds every score of
the round's ranked output) — paired with an empty dispatch map, and executes
no measurement, cost-model update or dispatch loop (the effect list is
empty). -/
theorem Search_single_trial (nTrials : Int) (scoredPop : List ScoredState)
    (outSize : Nat) (measured : List Nat)
    (fullLoop : Option (List ScoredState × List (Nat × Nat)) × List SearchEffect)
    (hn : nTrials ≤ 1)
    (hne : EvolutionarySearch scoredPop outSize measured ≠ []) :
    ∃ best0 rest, EvolutionarySearch scoredPop outSize measured = best0 :: rest
    ∧ Search nTrials scoredPop outSize measured fullLoop = (some ([best0], []), [])
    ∧ (∀ y ∈ EvolutionarySearch scoredPop outSize measured, y.2 ≤ best0.2) := by
  cases hev : EvolutionarySearch scoredPop outSize measured with
  | nil => exact absurd hev hne
  | cons b rest =>
    refine ⟨b, rest, rfl, ?_, ?_⟩
    · unfold Search
      rw [if_pos hn, hev]
    · intro y hy
      have hs : (EvolutionarySearch scoredPop outSize measured).Sorted scoreGe := by
        unfold EvolutionarySearch
        exact List.sorted_insertionSort scoreGe _
      rw [hev] at hs
      rcases List.mem_cons.mp hy with rfl | hy2
      · exact le_refl _
      · exact (List.sorted_cons.mp hs).1 y hy2

/-- A two-state scored population for instantiating the single-trial
theorem. -/
def searchSamplePop : List ScoredState := [(0, 3), (1, 8)]

theorem Search_single_trial_witness :
    ∃ best0 rest, EvolutionarySearch searchSamplePop 4 [] = best0 :: rest
    ∧ Search 1 searchSamplePop 4 [] (none, [SearchEffect.measure]) = (some ([best0], []), [])
    ∧ (∀ y ∈ EvolutionarySearch searchSamplePop 4 [], y.2 ≤ best0.2) :=
  Search_single_trial 1 searchSamplePop 4 [] (none, [SearchEffect.measure])
    (by decide) (by decide)

/-! ## EvolutionarySearch mutation loop (sketch_policy.cc, the
    `while (pnext->size() < population)` block) -/

/-- Outcome of applying the chosen mutation rule to the sampled parent;
states are abstracted to keys as in the retention heap. -/
inductive MutationOutcome where
  | valid (mutated : Nat)
  | invalid
deriving DecidableEq, Repr

/-- The random draws consumed by one iteration of the mutation loop: the
parent index sampled from the score distribution (`RandomChoose`), the
uniform draw compared against `mutation_prob`, the chosen rule index, and
the rule application's outcome on the sampled parent. -/
structure MutationAttempt where
  parentIdx : Nat
  draw : Rat
  ruleIdx : Nat
  outcome : MutationOutcome
deriving Repr

/-- One iteration of the mutation loop over the accumulator
`(next generation, mutation_success_ct, mutation_fail_ct)`: sample a parent;
when the uniform draw falls below `mutation_prob`, apply the chosen rule — a
valid result is pushed and counted as a success, an invalid one only
increments the failure counter (nothing is pushed); otherwise the unmutated
parent is pushed. -/
def mutationStep (mutationProb : Rat) (pnow : List Nat)
    (acc : List Nat × Nat × Nat) (a : MutationAttempt) : List Nat × Nat × Nat :=
  let parent := pnow.getD a.parentIdx 0
  if a.draw < mutationProb then
    match a.outcome with
    | .valid mutated => (acc.1 ++ [mutated], acc.2.1 + 1, acc.2.2)
    | .invalid => (acc.1, acc.2.1, acc.2.2 + 1)
  else (acc.1 ++ [parent], acc.2.1, acc.2.2)

/-- The `while (pnext->size() < population)` loop, consuming random draws
from `attempts`; `none` models the loop still waiting for further draws when
the supplied stream runs out before the next generation is complete. -/
def mutationLoop (mutationProb : Rat) (pnow : List Nat) (population : Nat) :
    List MutationAttempt → (List Nat × Nat × Nat) → Option (List Nat × Nat × Nat)
  | attempts, acc =>
    if acc.1.length < population then
      match attempts with
      | [] => none
      | a :: rest =>
        mutationLoop mutationProb pnow population rest
          (mutationStep mutationProb pnow acc a)
    else some acc

/-- C2 (amended): in the mutation phase, an attempt whose rule returns
invalid increments the mutation-failure counter and contributes no state to
the next generation (the parent is dropped and a fresh parent is drawn on
the next iteration); an attempt with a valid mutation contributes the
mutated state, and an attempt that skips mutation contributes the unmodified
parent — so an attempt contributes exactly one state iff it is not a failed
mutation. -/
theorem mutation_invalid_drops_parent (mutationProb : Rat) (pnow : List Nat)
    (acc : List Nat × Nat × Nat) (a : MutationAttempt) :
    (a.draw < mutationProb → a.outcome = MutationOutcome.invalid →
      mutationStep mutationProb pnow acc a = (acc.1, acc.2.1, acc.2.2 + 1))
    ∧ (∀ m, a.draw < mutationProb → a.outcome = MutationOutcome.valid m →
      mutationStep mutationProb pnow acc a = (acc.1 ++ [m], acc.2.1 + 1, acc.2.2))
    ∧ (¬ a.draw < mutationProb →
      mutationStep mutationProb pnow acc a
        = (acc.1 ++ [pnow.getD a.parentIdx 0], acc.2.1, acc.2.2)) := by
  refine ⟨?_, ?_, ?_⟩
  · intro hd ho
    unfold mutationStep
    rw [if_pos hd, ho]
  · intro m hd ho
    unfold mutationStep
    rw [if_pos hd, ho]
  · intro hd
    unfold mutationStep
    rw [if_neg hd]

theorem mutation_invalid_drops_parent_witness :
    mutationStep 1 [7] ([], 0, 0) ⟨0, 0, 0, MutationOutcome.invalid⟩ = ([], 0, 1)
    ∧ mutationStep 1 [7] ([], 0, 0) ⟨0, 0, 0, MutationOutcome.valid 9⟩ = ([9], 1, 0)
    ∧ mutationStep 0 [7] ([], 0, 0) ⟨0, 0, 0, MutationOutcome.invalid⟩ = ([7], 0, 0) :=
  ⟨(mutation_invalid_drops_parent 1 [7] ([], 0, 0) ⟨0, 0, 0, MutationOutcome.invalid⟩).1
      (by norm_num) rfl,
   (mutation_invalid_drops_parent 1 [7] ([], 0, 0) ⟨0, 0, 0, MutationOutcome.valid 9⟩).2.1
      9 (by norm_num) rfl,
   (mutation_invalid_drops_parent 0 [7] ([], 0, 0) ⟨0, 0, 0, MutationOutcome.invalid⟩).2.2
      (by norm_num)⟩

theorem mutation_invalid_counterexample :
    mutationStep 1 [7] ([], 0, 0) ⟨0, 0, 0, MutationOutcome.invalid⟩ = ([], 0, 1)
    ∧ ([] : List Nat) ≠ [7]
    ∧ mutationLoop 1 [7] 1 [⟨0, 0, 0, MutationOutcome.invalid⟩] ([], 0, 0) = none := by
  refine ⟨rfl, by decide, rfl⟩

/-! ## SampleInitPopulation loop (sketch_policy.cc,
    SketchPolicyNode::SampleInitPopulation) -/

/-- Per-wave sampler state: `out_states.size()`, the remaining target
`sample_init_min_pop_` (a C++ `int`), and `unchange_cnt`. -/
structure SamplerState where
  outCount : Nat
  target : Int
  unchangeCnt : Nat
deriving DecidableEq, Repr

/-- One sampling wave, parameterized by how many new accepted states it
contributes: `unchange_cnt` is incremented once per wave and reset to 0 by
any accepted state; when it reaches 5, a target above 1 is halved
(integer division) and the counter cleared. -/
def samplerStep (s : SamplerState) (accepted : Nat) : SamplerState :=
  let outCount := s.outCount + accepted
  let unchangeCnt := if 0 < accepted then 0 else s.unchangeCnt + 1
  if unchangeCnt = 5 then
    { outCount := outCount,
      target := if 1 < s.target then s.target / 2 else s.target,
      unchangeCnt := 0 }
  else
    { outCount := outCount, target := s.target, unchangeCnt := unchangeCnt }

/-- The `while (out_states.size() < sample_init_min_pop_)` loop, consuming a
stream of per-wave outcomes; returns the final state and the number of
executed waves, or `none` when the stream is exhausted with the guard still
true. -/
def samplerRun : List Nat → SamplerState → Option (SamplerState × Nat)
  | waves, s =>
    if (s.outCount : Int) < s.target then
      match waves with
      | [] => none
      | w :: rest =>
        match samplerRun rest (samplerStep s w) with
        | none => none
        | some (f, n) => some (f, n + 1)
    else some (s, 0)

/-- C6 (amended): with the minimum-population target 0 the sampler loop
terminates immediately — zero sampling waves execute (the guard
`out_states.size() < sample_init_min_pop_` is already false) — and the
target is never shrunk; in general, a wave that adds nothing after four
previous no-progress waves halves a target above 1 and resets the counter,
and the target never drops below 1. -/
theorem SampleInitPopulation_target_behavior :
    (∀ (waves : List Nat) (s : SamplerState), s.target = 0 →
      samplerRun waves s = some (s, 0))
    ∧ (∀ (s : SamplerState) (accepted : Nat), accepted = 0 → s.unchangeCnt = 4 →
        1 < s.target →
        (samplerStep s accepted).target = s.target / 2
        ∧ (samplerStep s accepted).unchangeCnt = 0)
    ∧ (∀ (s : SamplerState) (accepted : Nat), 1 ≤ s.target →
        1 ≤ (samplerStep s accepted).target) := by
  refine ⟨?_, ?_, ?_⟩
  · intro waves s ht
    unfold samplerRun
    rw [if_neg (by omega)]
  · intro s accepted ha hu ht
    subst ha
    simp [samplerStep, hu, ht]
  · intro s accepted ht
    unfold samplerStep
    by_cases hacc : 0 < accepted
    · simp only [hacc, if_true]
      rw [if_neg (by omega)]
      exact ht
    · simp only [hacc, if_false]
      by_cases h5 : s.unchangeCnt + 1 = 5
      · rw [if_pos h5]
        by_cases h1 : 1 < s.target
        · simp only [if_pos h1]
          omega
        · simp only [if_neg h1]
          exact ht
      · rw [if_neg h5]
        exact ht

theorem SampleInitPopulation_target_behavior_witness :
    samplerRun [3, 2] { outCount := 0, target := 0, unchangeCnt := 0 }
      = some ({ outCount := 0, target := 0, unchangeCnt := 0 }, 0)
    ∧ ((samplerStep { outCount := 0, target := 8, unchangeCnt := 4 } 0).target = 8 / 2
       ∧ (samplerStep { outCount := 0, target := 8, unchangeCnt := 4 } 0).unchangeCnt = 0)
    ∧ 1 ≤ (samplerStep { outCount := 3, target := 1, unchangeCnt := 0 } 2).target :=
  ⟨SampleInitPopulation_target_behavior.1 [3, 2]
      { outCount := 0, target := 0, unchangeCnt := 0 } rfl,
   SampleInitPopulation_target_behavior.2.1
      { outCount := 0, target := 8, unchangeCnt := 4 } 0 rfl rfl (by norm_num),
   SampleInitPopulation_target_behavior.2.2
      { outCount := 3, target := 1, unchangeCnt := 0 } 2 (by norm_num)⟩

theorem SampleInitPopulation_zero_target_counterexample :
    samplerRun [3, 2] { outCount := 0, target := 0, unchangeCnt := 0 }
      = some ({ outCount := 0, target := 0, unchangeCnt := 0 }, 0)
    ∧ (0 : Nat) ≠ 1 := by
  constructor
  · rfl
  · decide

/-! ## SearchTask construction (src/unnamed/part_000, search_task.cc) -/

/-- The dynamic-shape fields of a constructed `SearchTaskNode`: shape
variables (by name), concrete workload instances, and per-instance weights.
Absent optionals leave the stored arrays empty. -/
structure SearchTaskModel where
  shape_vars : Option (List Nat)
  wkl_insts : List (List Int)
  wkl_inst_weights : List Rat
deriving Repr

/-- The `<bojian/DietCode>` block of the `SearchTask` constructor: when
`shape_vars` is present, `CHECK(wkl_insts)` and `CHECK(wkl_inst_weights)`
abort fatally (modelled as `Except.error`) when the respective optional is
absent; present values are stored.  No comparison between the instance count
and the weight count is performed. -/
def SearchTask.construct (shape_vars : Option (List Nat))
    (wkl_insts : Option (List (List Int))) (wkl_inst_weights : Option (List Rat)) :
    Except String SearchTaskModel :=
  if shape_vars.isSome ∧ wkl_insts.isNone then
    .error "Check failed: wkl_insts"
  else if shape_vars.isSome ∧ wkl_inst_weights.isNone then
    .error "Check failed: wkl_inst_weights"
  else
    .ok { shape_vars := shape_vars,
          wkl_insts := wkl_insts.getD [],
          wkl_inst_weights := wkl_inst_weights.getD [] }

/-- C7 (amended): with shape variables present, the constructor fatally
rejects a task definition in which the workload instances or the instance
weights are absent; when both are present it succeeds and stores them as
given, regardless of their counts (count consistency is not checked at
construction time). -/
theorem SearchTask_construct_presence_checks (shape_vars : Option (List Nat))
    (wkl_insts : Option (List (List Int))) (wkl_inst_weights : Option (List Rat)) :
    (shape_vars.isSome → wkl_insts.isNone ∨ wkl_inst_weights.isNone →
      ∃ msg, SearchTask.construct shape_vars wkl_insts wkl_inst_weights
        = Except.error msg)
    ∧ (∀ insts w, wkl_insts = some insts → wkl_inst_weights = some w →
        SearchTask.construct shape_vars wkl_insts wkl_inst_weights
          = Except.ok { shape_vars := shape_vars, wkl_insts := insts,
                        wkl_inst_weights := w }) := by
  constructor
  · intro hs hmiss
    unfold SearchTask.construct
    rcases hmiss with h | h
    · rw [if_pos ⟨hs, h⟩]
      exact ⟨_, rfl⟩
    · by_cases h2 : wkl_insts.isNone
      · rw [if_pos ⟨hs, h2⟩]
        exact ⟨_, rfl⟩
      · rw [if_neg (fun hc => h2 hc.2), if_pos ⟨hs, h⟩]
        exact ⟨_, rfl⟩
  · intro insts w hi hw
    subst hi
    subst hw
    unfold SearchTask.construct
    rw [if_neg (by simp), if_neg (by simp)]
    rfl

theorem SearchTask_construct_presence_checks_witness :
    (∃ msg, SearchTask.construct (some [0]) none (some [1]) = Except.error msg)
    ∧ SearchTask.construct (some [0]) (some [[5], [6]]) (some [1])
        = Except.ok { shape_vars := some [0], wkl_insts := [[5], [6]],
                      wkl_inst_weights := [1] } :=
  ⟨(SearchTask_construct_presence_checks (some [0]) none (some [1])).1
      rfl (Or.inl rfl),
   (SearchTask_construct_presence_checks (some [0]) (some [[5], [6]]) (some [1])).2
      [[5], [6]] [1] rfl rfl⟩

theorem SearchTask_count_mismatch_counterexample :
    ∃ t, SearchTask.construct (some [0]) (some [[5], [6]]) (some [1]) = Except.ok t
    ∧ t.wkl_insts.length = 2 ∧ t.wkl_inst_weights.length = 1 := by
  refine ⟨_, rfl, rfl, rfl⟩

/-! ## GenerateSketches (sketch_policy.cc, SketchPolicyNode::GenerateSketches) -/

/-- `SketchGenerationRule::ConditionKind`. -/
inductive ConditionKind where
  | kSkip
  | kApply
  | kApplyAndSkipRest
deriving DecidableEq, Repr

/-- Transform steps as far as the rfactor post-pass inspects them. -/
inductive SketchStep where
  | split (stage_id iter_id : Nat) (extent : Option Int) (lengths : List (Option Int))
      (inner_to_outer : Bool)
  | rfactor (stage_id iter_id factor_iter_id : Nat)
  | otherStep
deriving DecidableEq, Repr

/-- A sketch state: its transform steps plus its stage count (the cursor
starts at `stages.size() - 1`). -/
structure SkState where
  transform_steps : List SketchStep
  stages : Nat
deriving DecidableEq, Repr

/-- A derivation rule: `MeetCondition` and `Apply`, both pure functions of
the state and the current stage. -/
structure SketchRule where
  meetCondition : SkState → Int → ConditionKind
  ruleApply : SkState → Int → List (SkState × Int)

/-- The policy fields visible to `GenerateSketches`: the ordered rule list
and the session RNG (`rand_gen`), which the function never consults. -/
structure SketchPolicyModel where
  sketch_rules : List SketchRule
  rand_gen : Nat

/-- Try all derivation rules on one frontier state: every rule whose
condition is not `kSkip` is applied and its successor states collected;
`kApplyAndSkipRest` stops rule evaluation for this state. -/
def applyRules : List SketchRule → SkState → Int → List (SkState × Int)
  | [], _, _ => []
  | r :: rs, s, stageId =>
    match r.meetCondition s stageId with
    | .kSkip => applyRules rs s stageId
    | .kApply => r.ruleApply s stageId ++ applyRules rs s stageId
    | .kApplyAndSkipRest => r.ruleApply s stageId

/-- One wave over the frontier: states whose stage cursor is below 0 are
terminal and emitted; the rest are expanded by the rules into the next
frontier. -/
def sketchWave (rules : List SketchRule) :
    List (SkState × Int) → List SkState × List (SkState × Int)
  | [] => ([], [])
  | (s, stageId) :: rest =>
    let (outs, next) := sketchWave rules rest
    if stageId < 0 then (s :: outs, next)
    else (outs, applyRules rules s stageId ++ next)

/-- The `while (!pnow->empty())` wave loop; `fuel` bounds the number of
waves we inspect (the C++ loop has no bound). -/
def sketchWaves (rules : List SketchRule) :
    Nat → List (SkState × Int) → List SkState → Option (List SkState)
  | 0, frontier, outs => if frontier.isEmpty then some outs else none
  | Nat.succ n, frontier, outs =>
    if frontier.isEmpty then some outs
    else
      let (newOuts, next) := sketchWave rules frontier
      sketchWaves rules n next (outs ++ newOuts)

/-- The rfactor post-pass scan, carrying the previous step: an rfactor step
requires the preceding step to be a split (`ICHECK`s, modelled as `none` on
violation), whose factor list is rewritten to the single undefined entry
`{NullOpt}`. -/
def rfactorScan (prev : SketchStep) : List SketchStep → Option (List SketchStep)
  | [] => some [prev]
  | st :: rest =>
    match st with
    | .rfactor a b c =>
      match prev with
      | .split sid iid extent _ ito =>
        match rfactorScan (.rfactor a b c) rest with
        | none => none
        | some tl => some (.split sid iid extent [none] ito :: tl)
      | _ => none
    | st2 =>
      match rfactorScan st2 rest with
      | none => none
      | some tl => some (prev :: tl)

/-- The rfactor post-pass over one state's steps (`ICHECK_GE(step_id, 1)`
fails when an rfactor step comes first). -/
def rfactorPostPass : List SketchStep → Option (List SketchStep)
  | [] => some []
  | .rfactor _ _ _ :: _ => none
  | st :: rest => rfactorScan st rest

/-- `SketchPolicyNode::GenerateSketches`: seed the frontier with the initial
state at cursor `stages.size() - 1`, run the wave loop, then apply the
rfactor post-pass to every emitted state. -/
def GenerateSketches (p : SketchPolicyModel) (fuel : Nat) (init : SkState) :
    Option (List SkState) :=
  match sketchWaves p.sketch_rules fuel [(init, (init.stages : Int) - 1)] [] with
  | none => none
  | some outs =>
    outs.mapM fun s =>
      match rfactorPostPass s.transform_steps with
      | none => none
      | some ts => some { s with transform_steps := ts }

/-- C8: `GenerateSketches` is deterministic and idempotent — its output
depends only on the rule list and the initial state's structure, never on
the policy's random generator, and two invocations on the same initial state
produce the same sketches. -/
theorem GenerateSketches_deterministic (p1 p2 : SketchPolicyModel)
    (fuel : Nat) (init : SkState)
    (hrules : p1.sketch_rules = p2.sketch_rules) :
    GenerateSketches p1 fuel init = GenerateSketches p2 fuel init
    ∧ GenerateSketches p1 fuel init = GenerateSketches p1 fuel init := by
  constructor
  · unfold GenerateSketches
    rw [hrules]
  · rfl

/-- A sample derivation rule that walks the cursor down one stage. -/
def sampleSketchRule : SketchRule :=
  { meetCondition := fun _ stageId =>
      if stageId = 0 then ConditionKind.kApplyAndSkipRest else ConditionKind.kApply,
    ruleApply := fun s stageId => [(s, stageId - 1)] }

/-- Two policies with the same rules but different RNG seeds. -/
def samplePolicySeed1 : SketchPolicyModel :=
  { sketch_rules := [sampleSketchRule], rand_gen := 1 }

/-- Same rules, different seed. -/
def samplePolicySeed42 : SketchPolicyModel :=
  { sketch_rules := [sampleSketchRule], rand_gen := 42 }

theorem GenerateSketches_deterministic_witness :
    GenerateSketches samplePolicySeed1 4 { transform_steps := [], stages := 3 }
      = GenerateSketches samplePolicySeed42 4 { transform_steps := [], stages := 3 }
    ∧ GenerateSketches samplePolicySeed1 4 { transform_steps := [], stages := 3 }
      = GenerateSketches samplePolicySeed1 4 { transform_steps := [], stages := 3 } :=
  GenerateSketches_deterministic samplePolicySeed1 samplePolicySeed42 4
    { transform_steps := [], stages := 3 } rfl

/-! ## Final dispatch / build-verification loop
    (sketch_policy.cc, the dynamic-task block of SketchPolicyNode::Search) -/

/-- The mutable state of the final dispatch block: the flattened
`adapted_candidate_flops` matrix (`[num_insts × num_states]`), the instance
list scheduled for build verification (`wkl_inst_ids`), the instances
collected for re-dispatch (`next_wkl_inst_ids`), the instance-to-state map of
the current pass, and the loop flag `changed_adapted_candidate_flops`. -/
structure DispatchState where
  adaptedFlops : List Rat
  wklInstIds : List Nat
  nextWklInstIds : List Nat
  instDispMap : List (Nat × Nat)
  changed : Bool
deriving Repr

/-- One iteration of the `do { ... } while` body: dispatch the candidate
states over the instances (`TopKDispatcher::dispatch` composed with
`MapWklInstsToStates`, abstracted as the `dispatch` argument since the
dispatcher's sources are external to the policy file), build one input per
scheduled instance, and for every failing build zero
`adapted_candidate_flops[inst_id * num_states + state_id]` and record the
instance in `next_wkl_inst_ids`.  Neither `wkl_inst_ids` nor the loop flag
`changed_adapted_candidate_flops` is ever written. -/
def dispatchBody (numStates : Nat) (dispatch : List Rat → List (Nat × Nat))
    (buildFails : Nat → Bool) (s : DispatchState) : DispatchState :=
  let dispMap := dispatch s.adaptedFlops
  let lookup := fun (inst : Nat) => ((dispMap.find? fun p => p.1 == inst).getD (inst, 0)).2
  let failing := s.wklInstIds.filter buildFails
  let flops := failing.foldl
      (fun fl inst => fl.set (inst * numStates + lookup inst) 0) s.adaptedFlops
  { adaptedFlops := flops,
    wklInstIds := s.wklInstIds,
    nextWklInstIds := failing,
    instDispMap := dispMap,
    changed := s.changed }

/-- The `do { body } while (changed_adapted_candidate_flops)` loop, counting
executed passes; `buildFails` gives each pass's build outcomes. -/
def dispatchLoop (numStates : Nat) (dispatch : List Rat → List (Nat × Nat))
    (buildFails : Nat → Nat → Bool) : Nat → Nat → DispatchState → Nat × DispatchState
  | 0, passes, s => (passes, s)
  | Nat.succ fuel, passes, s =>
    let s2 := dispatchBody numStates dispatch (buildFails passes) s
    if s2.changed then dispatchLoop numStates dispatch buildFails fuel (passes + 1) s2
    else (passes + 1, s2)

/-- The dispatch block of `Search`:
`changed_adapted_candidate_flops = false` before the loop, `wkl_inst_ids`
holds every instance index, and the do-while runs from there. -/
def SearchFinalDispatch (numStates : Nat) (dispatch : List Rat → List (Nat × Nat))
    (buildFails : Nat → Nat → Bool) (adaptedFlops : List Rat) (numInsts : Nat)
    (fuel : Nat) : Nat × DispatchState :=
  dispatchLoop numStates dispatch buildFails fuel 0
    { adaptedFlops := adaptedFlops,
      wklInstIds := List.range numInsts,
      nextWklInstIds := [],
      instDispMap := [],
      changed := false }

/-- A concrete dispatcher for the failing-build scenario: every instance is
mapped to state 1. -/
def cexDispatch : List Rat → List (Nat × Nat) := fun _ => [(0, 1), (1, 1), (2, 1)]

/-- Build outcomes: the build of the state dispatched to instance 2 fails in
every pass. -/
def cexBuildFails : Nat → Nat → Bool := fun _ inst => inst == 2

/-- C1: the dispatch-then-build-check cycle never repeats: the loop flag
`changed_adapted_candidate_flops` is initialized to `false` and never
written, so the do-while executes its body exactly once for every input —
even when builds fail.  At the concrete scenario of a build failure on
instance 2, the single pass zeroes that state's adapted score for instance 2
and records instance 2 for re-dispatch, but the loop then exits: the zeroed
score is never used in another selection pass and the failing dispatch map is
returned. -/
theorem dispatch_loop_single_pass :
    (∀ (numStates : Nat) (dispatch : List Rat → List (Nat × Nat))
       (buildFails : Nat → Nat → Bool) (adaptedFlops : List Rat)
       (numInsts fuel : Nat),
      SearchFinalDispatch numStates dispatch buildFails adaptedFlops numInsts (fuel + 1)
        = (1, dispatchBody numStates dispatch (buildFails 0)
            { adaptedFlops := adaptedFlops,
              wklInstIds := List.range numInsts,
              nextWklInstIds := [],
              instDispMap := [],
              changed := false }))
    ∧ (SearchFinalDispatch 2 cexDispatch cexBuildFails
          [10, 20, 30, 40, 50, 60] 3 5).1 = 1
    ∧ (SearchFinalDispatch 2 cexDispatch cexBuildFails
          [10, 20, 30, 40, 50, 60] 3 5).2.nextWklInstIds = [2]
    ∧ (SearchFinalDispatch 2 cexDispatch cexBuildFails
          [10, 20, 30, 40, 50, 60] 3 5).2.adaptedFlops = [10, 20, 30, 40, 50, 0]
    ∧ (SearchFinalDispatch 2 cexDispatch cexBuildFails
          [10, 20, 30, 40, 50, 60] 3 5).2.instDispMap = [(0, 1), (1, 1), (2, 1)] := by
  refine ⟨?_, ?_, ?_, ?_, ?_⟩
  · intro numStates dispatch buildFails adaptedFlops numInsts fuel
    rfl
  · rfl
  · rfl
  · rfl
  · rfl
